import Mathlib

/-!
Shallow embedding of the Fotoscapes personalization engine
(src/personalize.ts) and verification of its specification claims.

JavaScript numbers are modelled as exact rationals; the spec declares
bit-level floating point behavior out of scope.  Where a claim is about
the NaN behavior of JavaScript arithmetic on absent object keys, a
dedicated model with an explicit NaN value is used (see JsNum below).
Division by zero follows the Lean convention q / 0 = 0; the one place
this matters (a zero score sum in getSelection) returns index 0 under
both the Lean convention and the JavaScript NaN/Infinity semantics, as
noted at the corresponding definition.
-/

namespace Personalize

/-- Resolved configuration: the numeric instance fields of NewPersonalize
(personalize.ts lines 150-163) together with the scoreBoost field
(line 169) that choose fills from settings.interest.scoreBoost. -/
structure Config where
  count : Nat
  level0Multiplier : ℚ
  initialValue : ℚ
  hitValue : ℚ
  missValue : ℚ
  initialWeight : ℚ
  filterConst : ℚ
  deprioritization : ℚ
  noInterestsValue : ℚ
  scoreBoostExponent : ℚ
  interestValueFloor : ℚ
  maxConsidered : Nat
  scoreBoost : Option ℚ
deriving Repr, DecidableEq

/-- Built-in defaults of the engine instance (personalize.ts lines 150-169). -/
def defaultConfig : Config where
  count := 4
  level0Multiplier := 2
  initialValue := 1/2
  hitValue := 2
  missValue := 1/10000
  initialWeight := 1/1000
  filterConst := 19/20
  deprioritization := 1/5
  noInterestsValue := 1/100
  scoreBoostExponent := 19/10
  interestValueFloor := 1/10
  maxConsidered := 50
  scoreBoost := none

/-- Caller-supplied settings.interest object: each field optional
(absent key modelled as none). -/
structure InterestSettings where
  level0_multiplier : Option ℚ := none
  initial : Option ℚ := none
  hit : Option ℚ := none
  miss : Option ℚ := none
  filter_const : Option ℚ := none
  deprioritization : Option ℚ := none
  no_interests : Option ℚ := none
  scoreBoost : Option ℚ := none
deriving Repr, DecidableEq

/-- Caller-supplied settings object passed to choose. -/
structure Settings where
  count : Option Nat := none
  maxConsidered : Option Nat := none
  interest : Option InterestSettings := none
deriving Repr, DecidableEq

/-- JavaScript `x || d` for a possibly-absent number x: a supplied 0 is
falsy and falls back to d, exactly like an absent value. -/
def orElseQ (o : Option ℚ) (d : ℚ) : ℚ :=
  match o with
  | some v => if v = 0 then d else v
  | none => d

/-- JavaScript `x || d` for a possibly-absent count. -/
def orElseN (o : Option Nat) (d : Nat) : Nat :=
  match o with
  | some v => if v = 0 then d else v
  | none => d

/-- Configuration merge performed by choose (personalize.ts lines 213-223).
Every line mirrors one `this.X = source || this.X` assignment.  Note that
the scoreBoost override is stored into the scoreBoost field (line 223)
while scoreBoostExponent, interestValueFloor and initialWeight have no
assignment in choose and keep their built-in values. -/
def resolveConfig (s : Settings) : Config :=
  let i := s.interest.getD {}
  { count := orElseN s.count defaultConfig.count
    maxConsidered := orElseN s.maxConsidered defaultConfig.maxConsidered
    level0Multiplier := orElseQ i.level0_multiplier defaultConfig.level0Multiplier
    initialValue := orElseQ i.initial defaultConfig.initialValue
    hitValue := orElseQ i.hit defaultConfig.hitValue
    missValue := orElseQ i.miss defaultConfig.missValue
    filterConst := orElseQ i.filter_const defaultConfig.filterConst
    deprioritization := orElseQ i.deprioritization defaultConfig.deprioritization
    noInterestsValue := orElseQ i.no_interests defaultConfig.noInterestsValue
    scoreBoost :=
      match i.scoreBoost with
      | some v => if v = 0 then defaultConfig.scoreBoost else some v
      | none => defaultConfig.scoreBoost
    scoreBoostExponent := defaultConfig.scoreBoostExponent
    interestValueFloor := defaultConfig.interestValueFloor
    initialWeight := defaultConfig.initialWeight }

/-- Association-list model of a JavaScript object used as a map with
string keys and values of type A. -/
def wGet {A : Type} : List (String × A) → String → Option A
  | [], _ => none
  | kv :: rest, k => if kv.1 = k then some kv.2 else wGet rest k

/-- JavaScript `obj[k] = v`: replace the value of an existing key in
place, or append the new key at the end. -/
def wSet {A : Type} : List (String × A) → String → A → List (String × A)
  | [], k, v => [(k, v)]
  | kv :: rest, k, v => if kv.1 = k then (k, v) :: rest else kv :: wSet rest k v

/-- User weight map (JavaScript object interest uid -> number). -/
abbrev WMap := List (String × ℚ)

/-- One entry of the default interest table; the weight field may be
absent in the feed. -/
structure DefaultInterest where
  weight : Option ℚ := none
deriving Repr, DecidableEq

/-- Default interest table supplied by the feed. -/
abbrev DefMap := List (String × DefaultInterest)

/-- One raw catalog entry as cleanup sees it: isObject is false for
null/non-object array elements, uid is none when the uid property is
not a string, interests is none when the interests property is not an
array. -/
structure RawEntry where
  isObject : Bool
  uid : Option String
  interests : Option (List String)
  promote : Bool
  boost : Option ℚ
deriving Repr, DecidableEq

/-- The raw catalog argument of choose: either not an array at all, or
an array of raw entries. -/
inductive RawCatalog where
  | notArray : RawCatalog
  | arr : List RawEntry → RawCatalog
deriving Repr, DecidableEq

/-- A catalog entry that survived cleanup: string uid and non-empty
interests list. -/
structure CleanItem where
  uid : String
  interests : List String
  promote : Bool
  boost : Option ℚ
deriving Repr, DecidableEq

/-- The loop body of cleanup (personalize.ts lines 330-344): skip
non-objects, entries without a string uid, and entries whose interests
is not a non-empty array; keep the rest in order. -/
def cleanupEntries : List RawEntry → List CleanItem
  | [] => []
  | e :: rest =>
    if !e.isObject then cleanupEntries rest
    else
      match e.uid with
      | none => cleanupEntries rest
      | some u =>
        match e.interests with
        | none => cleanupEntries rest
        | some l =>
          if l.isEmpty then cleanupEntries rest
          else { uid := u, interests := l, promote := e.promote, boost := e.boost } :: cleanupEntries rest

/-- cleanup (personalize.ts lines 321-346): a non-array catalog becomes
the empty list, an array is filtered entry by entry. -/
def cleanup : RawCatalog → List CleanItem
  | .notArray => []
  | .arr es => cleanupEntries es

/-- The validity test implicit in the three sequential checks of
cleanup, used to characterize cleanupEntries as a filter. -/
def validEntry (e : RawEntry) : Bool :=
  e.isObject && e.uid.isSome &&
    (match e.interests with
     | some l => !l.isEmpty
     | none => false)

/-- Conversion of a valid raw entry to its surviving clean item. -/
def toCleanItem (e : RawEntry) : CleanItem :=
  { uid := e.uid.getD ""
    interests := e.interests.getD []
    promote := e.promote
    boost := e.boost }

/-- priority (personalize.ts lines 384-394): the user weight when its
lookup is truthy (present and non-zero), else the default-table entry
weight when the entry exists, else initialValue.  A default entry whose
weight field is absent returns undefined in JavaScript; that value is
modelled as 0 here and is exercised by no theorem below. -/
def priority (cfg : Config) (defaults : DefMap) (uw : WMap) (i : String) : ℚ :=
  let v := (wGet uw i).getD 0
  if v ≠ 0 then v
  else
    match wGet defaults i with
    | some d => d.weight.getD 0
    | none => cfg.initialValue

/-- The interest accumulation loop of score (personalize.ts lines
365-372): the first-listed interest is multiplied by level0Multiplier,
the rest are added as is. -/
def interestSum (cfg : Config) (defaults : DefMap) (uw : WMap) : List String → ℚ
  | [] => 0
  | i0 :: rest =>
    priority cfg defaults uw i0 * cfg.level0Multiplier + (rest.map (priority cfg defaults uw)).sum

/-- A scored catalog item as consumed by the selection routines. -/
structure Lookbook where
  uid : String
  interests : List String
  promote : Bool
  score : ℚ
deriving Repr, DecidableEq

/-- score (personalize.ts lines 358-379) over sanitized items, with the
transcendental Math.pow taken as an explicit parameter p.  The sum of
interest priorities is multiplied by (1 + boost) (an absent boost is
falsy and becomes 0, line 374) and then raised, via p, to
cfg.scoreBoostExponent (line 376).  The noInterestsValue branch of the
source fires only when the interests property is undefined, which
cleanup has already ruled out for every item reaching this function. -/
def scoreItems (p : ℚ → ℚ → ℚ) (cfg : Config) (items : List CleanItem)
    (defaults : DefMap) (uw : WMap) : List Lookbook :=
  items.map fun it =>
    { uid := it.uid
      interests := it.interests
      promote := it.promote
      score := p (interestSum cfg defaults uw it.interests * (1 + it.boost.getD 0)) cfg.scoreBoostExponent }

/-- scoreSum (personalize.ts lines 463-469). -/
def scoreSum (pool : List Lookbook) : ℚ :=
  pool.foldl (fun s l => s + l.score) 0

/-- The walk of getSelection (personalize.ts lines 452-458): accumulate
score / ssum and return the first index at which the drawn value r is
at most the running sum; none when the walk falls through. -/
def getSelectionAux (ssum r : ℚ) : List Lookbook → Nat → ℚ → Option Nat
  | [], _, _ => none
  | l :: rest, idx, running =>
    let running := running + l.score / ssum
    if r ≤ running then some idx else getSelectionAux ssum r rest (idx + 1) running

/-- getSelection (personalize.ts lines 446-460): the pie-slice walk with
fallback index 0 when the walk falls through.  When the score sum is
zero, JavaScript produces NaN or infinite running sums and in every
case ends up returning index 0; with the Lean convention q / 0 = 0 the
running sum stays 0 and the result is likewise index 0. -/
def getSelection (pool : List Lookbook) (r : ℚ) : Nat :=
  (getSelectionAux (scoreSum pool) r pool 0 0).getD 0

/-- The default used for an out-of-range pool index; selection rounds
never index out of range because the round count is capped at the pool
size. -/
def dummyLookbook : Lookbook :=
  { uid := "", interests := [], promote := false, score := 0 }

/-- The weight-deprioritization loop of updateChoices (personalize.ts
lines 485-487) over the rational model: each interest of the picked item
has its entry multiplied by (1 - deprioritization).  An interest absent
from the map yields NaN in JavaScript, modelled as 0 here; the honest
NaN model is updateChoicesJs below, and no selection outcome depends on
these values (theorem C2_getList_ignores_weights). -/
def deprioritizeWeights (cfg : Config) (uw : WMap) (interests : List String) : WMap :=
  interests.foldl (fun m i => wSet m i ((wGet m i).getD 0 * (1 - cfg.deprioritization))) uw

/-- Return value of updateChoices. -/
structure ChoiceUpdate where
  lookbook : Lookbook
  lookbooks : List Lookbook
  userWeights : WMap
deriving Repr, DecidableEq

/-- updateChoices (personalize.ts lines 475-495): fetch the picked
lookbook, splice it out of the pool, and deprioritize its interests in
a copy of the weight map. -/
def updateChoices (cfg : Config) (pool : List Lookbook) (uw : WMap) (idx : Nat) : ChoiceUpdate :=
  let lkbk := pool.getD idx dummyLookbook
  { lookbook := lkbk
    lookbooks := pool.take idx ++ pool.drop (idx + 1)
    userWeights := deprioritizeWeights cfg uw lkbk.interests }

/-- The selection loop of getList (personalize.ts lines 430-436): fuel
counts the remaining rounds, i is the round index used to draw from the
injected random source. -/
def selectRounds (cfg : Config) (rand : Nat → ℚ) : Nat → Nat → List Lookbook → WMap → List Lookbook
  | _, 0, _, _ => []
  | i, fuel + 1, pool, uw =>
    let idx := getSelection pool (rand i)
    let u := updateChoices cfg pool uw idx
    u.lookbook :: selectRounds cfg rand (i + 1) fuel u.lookbooks u.userWeights

/-- getList (personalize.ts lines 404-438): promoted items pass through
in catalog order, then num = min(count - promotedCount, poolSize) rounds
of weighted sampling fill the rest.  num is an integer that can be
negative when more items are promoted than count; a negative num runs
zero rounds, exactly like the source loop. -/
def getList (cfg : Config) (lookbooks : List Lookbook) (uw : WMap) (rand : Nat → ℚ) : List Lookbook :=
  let promoted := lookbooks.filter fun l => l.promote
  let temp := lookbooks.filter fun l => !l.promote
  let num : Int := min ((cfg.count : Int) - promoted.length) (temp.length : Int)
  promoted ++ selectRounds cfg rand 0 num.toNat temp uw

/-- The second loop of updateWeights (personalize.ts lines 520-524):
every clicked interest whose lookup is falsy (absent or zero) is
assigned the value c. -/
def insertMissing (c : ℚ) (interests : List String) (m : WMap) : WMap :=
  interests.foldl (fun m i => if (wGet m i).getD 0 ≠ 0 then m else wSet m i c) m

/-- updateWeights (personalize.ts lines 508-526): every existing key is
low-pass filtered toward hitValue or missValue and clamped into
[interestValueFloor, 1]; then every clicked interest whose lookup is
falsy (absent or zero) is inserted with initialValue. -/
def updateWeights (cfg : Config) (interests : List String) (uw : WMap) : WMap :=
  let updated := uw.map fun ks =>
    let v := if interests.contains ks.1 then cfg.hitValue else cfg.missValue
    let s := cfg.filterConst * ks.2 + (1 - cfg.filterConst) * v
    (ks.1, min 1 (max cfg.interestValueFloor s))
  insertMissing cfg.initialValue interests updated

/-- The seed value of one default-table entry in getWeights
(personalize.ts line 749): the weight field when truthy (present and
non-zero), else initialWeight. -/
def seedValue (cfg : Config) (d : DefaultInterest) : ℚ :=
  match d.weight with
  | some w => if w = 0 then cfg.initialWeight else w
  | none => cfg.initialWeight

/-- The synthesis branch of getWeights (personalize.ts lines 746-753):
when no persisted map exists, seed each default interest with its weight
field when that is truthy, else with initialWeight. -/
def seedWeights (cfg : Config) (defaults : DefMap) : WMap :=
  defaults.map fun kd => (kd.1, seedValue cfg kd.2)

/-- The persistent store state: the localStorage slot holding the
serialized weight map, or none when nothing was ever persisted. -/
structure EngineState where
  store : Option WMap
deriving Repr, DecidableEq

/-- getWeights (personalize.ts lines 739-754): return the persisted map
when present, else synthesize one from the default table.  The
synthesized map is not written back. -/
def getWeightsState (cfg : Config) (defaults : DefMap) (st : EngineState) : WMap :=
  match st.store with
  | some m => m
  | none => seedWeights cfg defaults

/-- performChoose (personalize.ts lines 305-313): sanitize, truncate to
maxConsidered, score, and select; the weight map is passed in by the
caller (the source reads it via getWeights, see chooseState). -/
def performChoose (p : ℚ → ℚ → ℚ) (cfg : Config) (defaults : DefMap)
    (raw : RawCatalog) (uw : WMap) (rand : Nat → ℚ) : List Lookbook :=
  let cleaned := cleanup raw
  let data := cleaned.take cfg.maxConsidered
  let scored := scoreItems p cfg data defaults uw
  getList cfg scored uw rand

/-- choose (personalize.ts lines 209-228) with the store state passed
explicitly: resolve the configuration, read the weights, run
performChoose, and return the unchanged store state (the source contains
no setWeights call on this path). -/
def chooseState (p : ℚ → ℚ → ℚ) (s : Settings) (defaults : DefMap)
    (raw : RawCatalog) (rand : Nat → ℚ) (st : EngineState) : List Lookbook × EngineState :=
  let cfg := resolveConfig s
  (performChoose p cfg defaults raw (getWeightsState cfg defaults st) rand, st)

/-- click (personalize.ts lines 268-272) with the store state passed
explicitly: load the weights, update them, and persist the result. -/
def clickState (cfg : Config) (defaults : DefMap) (interests : List String)
    (st : EngineState) : EngineState :=
  { store := some (updateWeights cfg interests (getWeightsState cfg defaults st)) }

/-- A JavaScript number for the claims that are about NaN itself:
either an ordinary (rational) value or NaN. -/
inductive JsNum where
  | num : ℚ → JsNum
  | nan : JsNum
deriving Repr, DecidableEq

/-- JavaScript multiplication on such numbers: NaN propagates. -/
def jsMul : JsNum → JsNum → JsNum
  | .num a, .num b => .num (a * b)
  | _, _ => .nan

/-- Weight map over JavaScript numbers. -/
abbrev JsWMap := List (String × JsNum)

/-- Return value of updateChoicesJs. -/
structure ChoiceUpdateJs where
  lookbook : Lookbook
  lookbooks : List Lookbook
  userWeights : JsWMap
deriving Repr, DecidableEq

/-- One step of the deprioritization loop over the JavaScript number
model: uw[i] = uw[i] * (1 - deprioritization), where reading an absent
key yields undefined and undefined times a number is NaN. -/
def jsDeprioritizeStep (cfg : Config) (m : JsWMap) (i : String) : JsWMap :=
  wSet m i
    (match wGet m i with
     | some x => jsMul x (.num (1 - cfg.deprioritization))
     | none => JsNum.nan)

/-- updateChoices (personalize.ts lines 475-495) over the JavaScript
number model: reading an absent key yields undefined, and
undefined * (1 - deprioritization) is NaN, which the assignment then
stores under that key. -/
def updateChoicesJs (cfg : Config) (pool : List Lookbook) (uw : JsWMap) (idx : Nat) : ChoiceUpdateJs :=
  let lkbk := pool.getD idx dummyLookbook
  { lookbook := lkbk
    lookbooks := pool.take idx ++ pool.drop (idx + 1)
    userWeights := lkbk.interests.foldl (jsDeprioritizeStep cfg) uw }

/-! ### Map lemmas -/

theorem wGet_wSet_self {A : Type} (m : List (String × A)) (k : String) (v : A) :
    wGet (wSet m k v) k = some v := by
  induction m with
  | nil => simp [wSet, wGet]
  | cons kv rest ih =>
    by_cases h : kv.1 = k
    · simp [wSet, h, wGet]
    · simp [wSet, h, wGet, ih]

theorem wGet_wSet_ne {A : Type} (m : List (String × A)) (i k : String) (v : A) (h : i ≠ k) :
    wGet (wSet m i v) k = wGet m k := by
  induction m with
  | nil => simp [wSet, wGet, h]
  | cons kv rest ih =>
    by_cases hk : kv.1 = i
    · simp [wSet, hk, wGet, h, hk ▸ h, ih]
    · simp [wSet, hk, wGet, ih]

theorem wGet_map_entries {A B : Type} (F : String → A → B) (m : List (String × A)) (k : String) :
    wGet (m.map fun ks => (ks.1, F ks.1 ks.2)) k = (wGet m k).map (F k) := by
  induction m with
  | nil => simp [wGet]
  | cons kv rest ih =>
    by_cases h : kv.1 = k
    · subst h; simp [wGet, ih]
    · simp [wGet, h, ih]

theorem wGet_insertMissing_of_ne_zero (c : ℚ) (interests : List String) :
    ∀ (m : WMap) (k : String) (v : ℚ), wGet m k = some v → v ≠ 0 →
      wGet (insertMissing c interests m) k = some v := by
  induction interests with
  | nil => intro m k v h _; exact h
  | cons i rest ih =>
    intro m k v h hv
    simp only [insertMissing, List.foldl_cons]
    by_cases hik : i = k
    · subst hik
      rw [if_pos (by rw [h]; simpa using hv)]
      exact ih m i v h hv
    · by_cases hcond : (wGet m i).getD 0 ≠ 0
      · rw [if_pos hcond]; exact ih m k v h hv
      · rw [if_neg hcond]
        exact ih _ k v (by rw [wGet_wSet_ne m i k c hik]; exact h) hv

theorem wGet_insertMissing_mem (c : ℚ) (hc : c ≠ 0) :
    ∀ (interests : List String) (m : WMap) (k : String), k ∈ interests → wGet m k = none →
      wGet (insertMissing c interests m) k = some c := by
  intro interests
  induction interests with
  | nil => intro m k hmem _; exact absurd hmem (List.not_mem_nil k)
  | cons i rest ih =>
    intro m k hmem habs
    simp only [insertMissing, List.foldl_cons]
    by_cases hik : i = k
    · subst hik
      rw [if_neg (by rw [habs]; simp)]
      exact wGet_insertMissing_of_ne_zero c rest (wSet m i c) i c (wGet_wSet_self m i c) hc
    · have hk : k ∈ rest := by
        rcases List.mem_cons.mp hmem with h | h
        · exact absurd h.symm hik
        · exact h
      by_cases hcond : (wGet m i).getD 0 ≠ 0
      · rw [if_pos hcond]; exact ih m k hk habs
      · rw [if_neg hcond]
        exact ih _ k hk (by rw [wGet_wSet_ne m i k c hik]; exact habs)

theorem wGet_insertMissing_not_mem (c : ℚ) :
    ∀ (interests : List String) (m : WMap) (k : String), k ∉ interests →
      wGet (insertMissing c interests m) k = wGet m k := by
  intro interests
  induction interests with
  | nil => intro m k _; rfl
  | cons i rest ih =>
    intro m k hmem
    have hik : i ≠ k := fun h => hmem (h ▸ List.mem_cons_self i rest)
    have hk : k ∉ rest := fun h => hmem (List.mem_cons_of_mem i h)
    simp only [insertMissing, List.foldl_cons]
    by_cases hcond : (wGet m i).getD 0 ≠ 0
    · rw [if_pos hcond]; exact ih m k hk
    · rw [if_neg hcond]
      exact (ih _ k hk).trans (wGet_wSet_ne m i k c hik)

/-- Full per-key characterization of updateWeights for any configuration
whose clamp window is well-formed and whose initialValue is truthy. -/
theorem wGet_updateWeights (cfg : Config) (hInit : cfg.initialValue ≠ 0)
    (hFloorPos : 0 < cfg.interestValueFloor) (hFloorLe : cfg.interestValueFloor ≤ 1)
    (interests : List String) (uw : WMap) (k : String) :
    wGet (updateWeights cfg interests uw) k =
      match wGet uw k with
      | some s => some (min 1 (max cfg.interestValueFloor
          (cfg.filterConst * s + (1 - cfg.filterConst) *
            (if interests.contains k then cfg.hitValue else cfg.missValue))))
      | none => if k ∈ interests then some cfg.initialValue else none := by
  have hup : wGet (uw.map fun ks =>
      (ks.1, min 1 (max cfg.interestValueFloor
        (cfg.filterConst * ks.2 + (1 - cfg.filterConst) *
          (if interests.contains ks.1 then cfg.hitValue else cfg.missValue))))) k =
      (wGet uw k).map (fun s => min 1 (max cfg.interestValueFloor
        (cfg.filterConst * s + (1 - cfg.filterConst) *
          (if interests.contains k then cfg.hitValue else cfg.missValue)))) :=
    wGet_map_entries
      (fun k s => min 1 (max cfg.interestValueFloor
        (cfg.filterConst * s + (1 - cfg.filterConst) *
          (if interests.contains k then cfg.hitValue else cfg.missValue)))) uw k
  cases hcase : wGet uw k with
  | some s =>
    have hclamped : wGet (uw.map fun ks =>
        (ks.1, min 1 (max cfg.interestValueFloor
          (cfg.filterConst * ks.2 + (1 - cfg.filterConst) *
            (if interests.contains ks.1 then cfg.hitValue else cfg.missValue))))) k =
        some (min 1 (max cfg.interestValueFloor
          (cfg.filterConst * s + (1 - cfg.filterConst) *
            (if interests.contains k then cfg.hitValue else cfg.missValue)))) := by
      rw [hup, hcase]; rfl
    have hge : cfg.interestValueFloor ≤ min 1 (max cfg.interestValueFloor
        (cfg.filterConst * s + (1 - cfg.filterConst) *
          (if interests.contains k then cfg.hitValue else cfg.missValue))) :=
      le_min hFloorLe (le_max_left _ _)
    have hne : min 1 (max cfg.interestValueFloor
        (cfg.filterConst * s + (1 - cfg.filterConst) *
          (if interests.contains k then cfg.hitValue else cfg.missValue))) ≠ 0 :=
      ne_of_gt (lt_of_lt_of_le hFloorPos hge)
    exact wGet_insertMissing_of_ne_zero cfg.initialValue interests _ k _ hclamped hne
  | none =>
    have habs : wGet (uw.map fun ks =>
        (ks.1, min 1 (max cfg.interestValueFloor
          (cfg.filterConst * ks.2 + (1 - cfg.filterConst) *
            (if interests.contains ks.1 then cfg.hitValue else cfg.missValue))))) k = none := by
      rw [hup, hcase]; rfl
    by_cases hmem : k ∈ interests
    · rw [if_pos hmem]
      exact wGet_insertMissing_mem cfg.initialValue hInit interests _ k hmem habs
    · rw [if_neg hmem]
      rw [updateWeights]
      rw [wGet_insertMissing_not_mem cfg.initialValue interests _ k hmem]
      exact habs

/-! ### Selection lemmas -/

theorem selectRounds_length (cfg : Config) (rand : Nat → ℚ) :
    ∀ (fuel i : Nat) (pool : List Lookbook) (uw : WMap),
      (selectRounds cfg rand i fuel pool uw).length = fuel := by
  intro fuel
  induction fuel with
  | zero => intros; rfl
  | succ n ih =>
    intro i pool uw
    simp only [selectRounds, List.length_cons]
    rw [ih]

theorem selectRounds_ignores_weights (cfg : Config) (rand : Nat → ℚ) :
    ∀ (fuel i : Nat) (pool : List Lookbook) (uw uw' : WMap),
      selectRounds cfg rand i fuel pool uw = selectRounds cfg rand i fuel pool uw' := by
  intro fuel
  induction fuel with
  | zero => intros; rfl
  | succ n ih =>
    intro i pool uw uw'
    simp only [selectRounds]
    exact congrArg (List.cons _) (ih (i + 1) _ _ _)

theorem getSelectionAux_zero_sum (r : ℚ) :
    ∀ (pool : List Lookbook) (idx : Nat) (running : ℚ), ¬ r ≤ running →
      getSelectionAux 0 r pool idx running = none := by
  intro pool
  induction pool with
  | nil => intros; rfl
  | cons l rest ih =>
    intro idx running h
    simp only [getSelectionAux, div_zero, add_zero]
    rw [if_neg h]
    exact ih (idx + 1) running h

/-! ### Claim theorems, first group -/

/-- C2: the selection outcome of getList is completely independent of the
weight map it is given.  The per-round deprioritized working copy is
threaded through the loop but never re-enters the scores that
getSelection samples from, so later picks are computed from the original
pre-selection scores; this refutes the claimed influence of the working
copy on subsequent picks and shows the deprioritization tunable has no
observable effect on selection. -/
theorem C2_getList_ignores_weights (cfg : Config) (lookbooks : List Lookbook)
    (uw uw' : WMap) (rand : Nat → ℚ) :
    getList cfg lookbooks uw rand = getList cfg lookbooks uw' rand := by
  unfold getList
  exact congrArg _ (selectRounds_ignores_weights cfg rand _ 0 _ uw uw')

/-- C5: for every non-empty pool whose scores sum to zero, one sampling
round raises no error and deterministically picks index 0 regardless of
the drawn random value. -/
theorem C5_zero_sum_picks_first (pool : List Lookbook) (r : ℚ)
    (hne : pool ≠ []) (hzero : scoreSum pool = 0) :
    getSelection pool r = 0 := by
  cases pool with
  | nil => exact absurd rfl hne
  | cons l rest =>
    unfold getSelection
    rw [hzero]
    simp only [getSelectionAux, div_zero, add_zero]
    by_cases h : r ≤ 0
    · rw [if_pos h]; rfl
    · rw [if_neg h, getSelectionAux_zero_sum r rest (0 + 1) 0 h]; rfl

/-- A two-item pool with all-zero scores. -/
def zeroPool : List Lookbook :=
  [{ uid := "a", interests := ["ia"], promote := false, score := 0 },
   { uid := "b", interests := ["ib"], promote := false, score := 0 }]

/-- Witness for C5 at a concrete pool and random draw. -/
theorem C5_zero_sum_picks_first_witness : getSelection zeroPool (1/3) = 0 :=
  C5_zero_sum_picks_first zeroPool (1/3) (List.cons_ne_nil _ _)
    (by simp [zeroPool, scoreSum])

/-- C9: choose never writes the persistent weight store (the state after
a choose call is the state before it), and click mutates it in exactly
the load, update, save shape. -/
theorem C9_store_frame (p : ℚ → ℚ → ℚ) (s : Settings) (defaults : DefMap)
    (raw : RawCatalog) (rand : Nat → ℚ) (cfg : Config) (interests : List String)
    (st : EngineState) :
    (chooseState p s defaults raw rand st).2 = st ∧
    clickState cfg defaults interests st =
      { store := some (updateWeights cfg interests (getWeightsState cfg defaults st)) } :=
  ⟨rfl, rfl⟩

/-! ### NaN lemmas for C10 -/

theorem jsDeprioritize_not_mem (cfg : Config) :
    ∀ (l : List String) (m : JsWMap) (i : String), i ∉ l →
      wGet (l.foldl (jsDeprioritizeStep cfg) m) i = wGet m i := by
  intro l
  induction l with
  | nil => intros; rfl
  | cons j rest ih =>
    intro m i hmem
    have hji : j ≠ i := fun h => hmem (h ▸ List.mem_cons_self j rest)
    have hi : i ∉ rest := fun h => hmem (List.mem_cons_of_mem j h)
    simp only [List.foldl_cons]
    rw [ih _ i hi, jsDeprioritizeStep, wGet_wSet_ne _ j i _ hji]

theorem jsDeprioritize_nan (cfg : Config) :
    ∀ (l : List String) (m : JsWMap) (i : String), i ∈ l →
      (wGet m i = none ∨ wGet m i = some JsNum.nan) →
      wGet (l.foldl (jsDeprioritizeStep cfg) m) i = some JsNum.nan := by
  intro l
  induction l with
  | nil => intro m i hmem _; exact absurd hmem (List.not_mem_nil i)
  | cons j rest ih =>
    intro m i hmem hcur
    simp only [List.foldl_cons]
    by_cases hij : j = i
    · subst hij
      have hstep : wGet (jsDeprioritizeStep cfg m j) j = some JsNum.nan := by
        rw [jsDeprioritizeStep, wGet_wSet_self]
        rcases hcur with h | h
        · rw [h]
        · rw [h]; rfl
      by_cases hrest : j ∈ rest
      · exact ih _ j hrest (Or.inr hstep)
      · rw [jsDeprioritize_not_mem cfg rest _ j hrest]; exact hstep
    · have hi : i ∈ rest := by
        rcases List.mem_cons.mp hmem with h | h
        · exact absurd h.symm hij
        · exact h
      have hkeep : wGet (jsDeprioritizeStep cfg m j) i = wGet m i := by
        rw [jsDeprioritizeStep, wGet_wSet_ne _ j i _ hij]
      exact ih _ i hi (hkeep ▸ hcur)

/-- C10: in the per-round deprioritization step, an interest of the
picked item that is absent from the working weight-map copy ends up
mapped to NaN, because JavaScript multiplies an undefined entry by
(1 - deprioritization); the update is numerically well-formed only for
interests already present in the map. -/
theorem C10_absent_interest_nan (cfg : Config) (pool : List Lookbook) (uw : JsWMap)
    (idx : Nat) (i : String) (hmem : i ∈ (pool.getD idx dummyLookbook).interests)
    (habs : wGet uw i = none) :
    wGet (updateChoicesJs cfg pool uw idx).userWeights i = some JsNum.nan :=
  jsDeprioritize_nan cfg _ uw i hmem (Or.inl habs)

/-- Witness for C10 at a concrete pool, empty working map and interest. -/
theorem C10_absent_interest_nan_witness :
    wGet (updateChoicesJs defaultConfig
      [{ uid := "u", interests := ["a"], promote := false, score := 1 }] [] 0).userWeights "a" =
      some JsNum.nan :=
  C10_absent_interest_nan defaultConfig
    [{ uid := "u", interests := ["a"], promote := false, score := 1 }] [] 0 "a"
    (List.Mem.head _) rfl

/-! ### Clamp bounds and the weight-map claims C3 and C4 -/

theorem clamp_bounds (floor x : ℚ) (hf : floor ≤ 1) :
    floor ≤ min 1 (max floor x) ∧ min 1 (max floor x) ≤ 1 :=
  ⟨le_min hf (le_max_left _ _), min_le_left _ _⟩

theorem updateWeights_bounds_default (interests : List String) (uw : WMap) (k : String) :
    match wGet (updateWeights defaultConfig interests uw) k with
    | some v => defaultConfig.interestValueFloor ≤ v ∧ v ≤ 1
    | none => True := by
  rw [wGet_updateWeights defaultConfig (by norm_num [defaultConfig])
    (by norm_num [defaultConfig]) (by norm_num [defaultConfig]) interests uw k]
  cases wGet uw k with
  | some s => exact clamp_bounds _ _ (by norm_num [defaultConfig])
  | none =>
    by_cases hmem : k ∈ interests
    · rw [if_pos hmem]
      exact ⟨by norm_num [defaultConfig], by norm_num [defaultConfig]⟩
    · rw [if_neg hmem]
      trivial

/-- C4: under the default configuration, every weight in the map produced
by updateWeights lies in the closed interval from interestValueFloor to 1:
each pre-existing key is low-pass filtered toward hitValue on hit and
missValue on miss and clamped into that interval, and each clicked
identifier not yet present is inserted with initialValue. -/
theorem C4_update_clamp (interests : List String) (uw : WMap) (k : String) :
    (match wGet (updateWeights defaultConfig interests uw) k with
     | some v => defaultConfig.interestValueFloor ≤ v ∧ v ≤ 1
     | none => True) ∧
    wGet (updateWeights defaultConfig interests uw) k =
      (match wGet uw k with
       | some s => some (min 1 (max defaultConfig.interestValueFloor
           (defaultConfig.filterConst * s + (1 - defaultConfig.filterConst) *
             (if interests.contains k then defaultConfig.hitValue else defaultConfig.missValue))))
       | none => if k ∈ interests then some defaultConfig.initialValue else none) :=
  ⟨updateWeights_bounds_default interests uw k,
   wGet_updateWeights defaultConfig (by norm_num [defaultConfig])
     (by norm_num [defaultConfig]) (by norm_num [defaultConfig]) interests uw k⟩

/-- C3 (amended): every weight produced by a weight update under the
default configuration lies in the closed interval from interestValueFloor
to 1; the map synthesized by the store load when no persisted map exists
is seeded from the default interest table with the weight field if
present and non-zero, else initialWeight, and those seeded values are
not subject to the interval invariant (counterexample
C3_seed_below_floor_cex). -/
theorem C3_invariant_amended (interests : List String) (uw : WMap)
    (defaults : DefMap) (k : String) :
    (match wGet (updateWeights defaultConfig interests uw) k with
     | some v => defaultConfig.interestValueFloor ≤ v ∧ v ≤ 1
     | none => True) ∧
    wGet (seedWeights defaultConfig defaults) k =
      (wGet defaults k).map (seedValue defaultConfig) ∧
    (∀ w : ℚ, seedValue defaultConfig { weight := some w } =
      if w = 0 then defaultConfig.initialWeight else w) ∧
    seedValue defaultConfig { weight := none } = defaultConfig.initialWeight :=
  ⟨updateWeights_bounds_default interests uw k,
   wGet_map_entries (fun _ d => seedValue defaultConfig d) defaults k,
   fun _ => rfl, rfl⟩

/-- C3 counterexample: the map synthesized by load for a default table
entry lacking a weight stores initialWeight 0.001, which lies beneath
interestValueFloor 0.1, so the interval invariant does not hold at all
times. -/
theorem C3_seed_below_floor_cex :
    wGet (seedWeights defaultConfig [("a", { weight := none })]) "a" = some (1/1000) ∧
      ¬ defaultConfig.interestValueFloor ≤ (1/1000 : ℚ) := by
  constructor
  · rfl
  · norm_num [defaultConfig]

/-! ### Length lemmas and claim C1 -/

theorem length_filter_add_not {α : Type} (P : α → Bool) (l : List α) :
    (l.filter P).length + (l.filter fun a => !P a).length = l.length := by
  induction l with
  | nil => rfl
  | cons a rest ih =>
    by_cases h : P a <;> simp [List.filter_cons, h] <;> omega

theorem getList_length (cfg : Config) (lookbooks : List Lookbook) (uw : WMap) (rand : Nat → ℚ) :
    (getList cfg lookbooks uw rand).length =
      (lookbooks.filter fun l => l.promote).length +
        (min ((cfg.count : Int) - (lookbooks.filter fun l => l.promote).length)
          ((lookbooks.filter fun l => !l.promote).length : Int)).toNat := by
  unfold getList
  rw [List.length_append, selectRounds_length]

/-- C1 (amended): the selection result has length equal to promotedCount
plus the loop round count, which is at most the size of the scored
catalog, and is at most count whenever at most count items are promoted;
when more than count items carry the promote flag the result exceeds
count (counterexample C1_over_count_cex). -/
theorem C1_length_invariant (cfg : Config) (lookbooks : List Lookbook)
    (uw : WMap) (rand : Nat → ℚ) :
    (getList cfg lookbooks uw rand).length ≤ lookbooks.length ∧
    ((lookbooks.filter fun l => l.promote).length ≤ cfg.count →
      (getList cfg lookbooks uw rand).length ≤ cfg.count) := by
  have hlen := getList_length cfg lookbooks uw rand
  have hpart := length_filter_add_not (fun l => l.promote) lookbooks
  constructor
  · rw [hlen]
    have h1 := min_le_right ((cfg.count : Int) - (lookbooks.filter fun l => l.promote).length)
      (((lookbooks.filter fun l => !l.promote).length : Nat) : Int)
    omega
  · intro hp
    rw [hlen]
    have h2 := min_le_left ((cfg.count : Int) - (lookbooks.filter fun l => l.promote).length)
      (((lookbooks.filter fun l => !l.promote).length : Nat) : Int)
    omega

/-- Two concrete scored items, one promoted. -/
def demoLookbooks : List Lookbook :=
  [{ uid := "a", interests := ["i"], promote := true, score := 1 },
   { uid := "b", interests := ["j"], promote := false, score := 1 }]

/-- Witness for C1 at a concrete catalog, weight map and random source. -/
theorem C1_length_invariant_witness :
    (getList defaultConfig demoLookbooks [] (fun _ => 0)).length ≤ demoLookbooks.length ∧
    (getList defaultConfig demoLookbooks [] (fun _ => 0)).length ≤ defaultConfig.count := by
  have h := C1_length_invariant defaultConfig demoLookbooks [] (fun _ => 0)
  exact ⟨h.1, h.2 (by decide)⟩

/-- Five raw catalog entries, all flagged promote. -/
def fivePromotedRaw : List RawEntry :=
  [{ isObject := true, uid := some "p1", interests := some ["x"], promote := true, boost := none },
   { isObject := true, uid := some "p2", interests := some ["x"], promote := true, boost := none },
   { isObject := true, uid := some "p3", interests := some ["x"], promote := true, boost := none },
   { isObject := true, uid := some "p4", interests := some ["x"], promote := true, boost := none },
   { isObject := true, uid := some "p5", interests := some ["x"], promote := true, boost := none }]

/-- C1 counterexample: with the default count of 4 and five promoted
items, the end-to-end selection returns all five items, so the result
length exceeds count. -/
theorem C1_over_count_cex :
    (performChoose (fun b _ => b) defaultConfig [] (RawCatalog.arr fivePromotedRaw) []
      (fun _ => 0)).length = 5 ∧
    ¬ (performChoose (fun b _ => b) defaultConfig [] (RawCatalog.arr fivePromotedRaw) []
      (fun _ => 0)).length ≤ defaultConfig.count := by
  have h : (performChoose (fun b _ => b) defaultConfig [] (RawCatalog.arr fivePromotedRaw) []
      (fun _ => 0)).length = 5 := rfl
  refine ⟨h, ?_⟩
  rw [h]
  decide

/-! ### Two-item weighted sampling, claim C7 -/

/-- Two non-promoted items with scores in ratio 3 to 1. -/
def pool31 : List Lookbook :=
  [{ uid := "a", interests := ["ia"], promote := false, score := 3 },
   { uid := "b", interests := ["ib"], promote := false, score := 1 }]

/-- C7 (amended): over the 3 to 1 pool the sampled pick is the first
item whose cumulative score fraction is at least r, so the first item is
picked exactly when r lies in the closed-at-both-ends interval from 0 to
3/4 and the second exactly when r lies strictly between 3/4 and 1; at
the boundary r = 3/4 the first item is picked, not the second
(counterexample C7_boundary_cex). -/
theorem C7_two_item_sampling (r : ℚ) (_h0 : 0 ≤ r) (h1 : r < 1) :
    getSelection pool31 r = if r ≤ 3/4 then 0 else 1 := by
  have hs : scoreSum pool31 = 4 := by norm_num [scoreSum, pool31]
  unfold getSelection
  rw [hs]
  have e1 : (0 : ℚ) + 3 / 4 = 3 / 4 := by norm_num
  have e2 : (3 : ℚ) / 4 + 1 / 4 = 1 := by norm_num
  simp only [pool31, getSelectionAux, e1, e2]
  by_cases hle : r ≤ 3/4
  · rw [if_pos hle, if_pos hle]
    rfl
  · rw [if_neg hle, if_neg hle, if_pos h1.le]
    rfl

/-- Witness for C7 at the concrete draw r = 0. -/
theorem C7_two_item_sampling_witness :
    getSelection pool31 0 = if (0 : ℚ) ≤ 3/4 then 0 else 1 :=
  C7_two_item_sampling 0 (le_refl 0) zero_lt_one

/-- C7 counterexample: the draw r = 3/4 lies in the claimed second
bucket, the half-open interval from 3/4 to 1, yet the sampled pick is
the first item, index 0, not the second. -/
theorem C7_boundary_cex :
    ((3 : ℚ)/4 ≤ 3/4 ∧ (3 : ℚ)/4 < 1) ∧
      getSelection pool31 (3/4) = 0 ∧ getSelection pool31 (3/4) ≠ 1 := by
  have hs : scoreSum pool31 = 4 := by norm_num [scoreSum, pool31]
  have hsel : getSelection pool31 (3/4) = 0 := by
    unfold getSelection
    rw [hs]
    simp only [pool31, getSelectionAux]
    rw [if_pos (by norm_num : (3 : ℚ)/4 ≤ 0 + 3 / 4)]
    rfl
  exact ⟨⟨le_refl _, by norm_num⟩, hsel, by rw [hsel]; decide⟩

/-! ### Sanitization, claim C8 -/

theorem cleanupEntries_eq_filter :
    ∀ es : List RawEntry, cleanupEntries es = (es.filter validEntry).map toCleanItem := by
  intro es
  induction es with
  | nil => rfl
  | cons e rest ih =>
    rcases e with ⟨isObj, uid, ints, promote, boost⟩
    cases isObj
    · simpa [cleanupEntries, validEntry, List.filter_cons] using ih
    · cases uid with
      | none => simpa [cleanupEntries, validEntry, List.filter_cons] using ih
      | some u =>
        cases ints with
        | none => simpa [cleanupEntries, validEntry, List.filter_cons] using ih
        | some l =>
          cases hl : l.isEmpty
          · simpa [cleanupEntries, validEntry, List.filter_cons, hl, toCleanItem] using ih
          · simpa [cleanupEntries, validEntry, List.filter_cons, hl] using ih

theorem getList_nil (cfg : Config) (uw : WMap) (rand : Nat → ℚ) :
    getList cfg [] uw rand = [] := by
  have h := getList_length cfg [] uw rand
  simp only [List.filter_nil, List.length_nil, Nat.cast_zero, sub_zero] at h
  have h0 : (getList cfg [] uw rand).length = 0 := by
    rw [h, Int.toNat_of_nonpos (min_le_right _ _)]
  exact List.length_eq_zero.mp h0

/-- C8: a catalog that is not an array, and an array all of whose entries
are invalid, both yield an empty selection result with no raised
failure (all functions involved are total), while the valid entries of a
mixed array survive sanitization in their original order. -/
theorem C8_invalid_catalog (p : ℚ → ℚ → ℚ) (cfg : Config) (defaults : DefMap)
    (uw : WMap) (rand : Nat → ℚ) :
    performChoose p cfg defaults RawCatalog.notArray uw rand = [] ∧
    (∀ es : List RawEntry, (∀ e ∈ es, validEntry e = false) →
      performChoose p cfg defaults (RawCatalog.arr es) uw rand = []) ∧
    (∀ es : List RawEntry, cleanup (RawCatalog.arr es) = (es.filter validEntry).map toCleanItem) := by
  refine ⟨?_, ?_, fun es => cleanupEntries_eq_filter es⟩
  · show getList cfg (scoreItems p cfg ((cleanup RawCatalog.notArray).take cfg.maxConsidered)
      defaults uw) uw rand = []
    rw [show cleanup RawCatalog.notArray = [] from rfl, List.take_nil,
      show scoreItems p cfg [] defaults uw = [] from rfl]
    exact getList_nil cfg uw rand
  · intro es h
    have hfil : es.filter validEntry = [] := by
      rw [List.filter_eq_nil_iff]
      intro a ha
      simp [h a ha]
    have hclean : cleanup (RawCatalog.arr es) = [] := by
      rw [show cleanup (RawCatalog.arr es) = cleanupEntries es from rfl,
        cleanupEntries_eq_filter es, hfil]
      rfl
    show getList cfg (scoreItems p cfg ((cleanup (RawCatalog.arr es)).take cfg.maxConsidered)
      defaults uw) uw rand = []
    rw [hclean, List.take_nil, show scoreItems p cfg [] defaults uw = [] from rfl]
    exact getList_nil cfg uw rand

/-- A raw catalog entry failing every validity check. -/
def badEntry : RawEntry :=
  { isObject := false, uid := none, interests := none, promote := false, boost := none }

/-- Witness for C8 at a concrete invalid catalog. -/
theorem C8_invalid_catalog_witness :
    performChoose (fun b _ => b) defaultConfig [] RawCatalog.notArray [] (fun _ => 0) = [] ∧
    performChoose (fun b _ => b) defaultConfig [] (RawCatalog.arr [badEntry]) [] (fun _ => 0) = [] ∧
    cleanup (RawCatalog.arr [badEntry]) = ([badEntry].filter validEntry).map toCleanItem := by
  have h := C8_invalid_catalog (fun b _ => b) defaultConfig [] [] (fun _ => 0)
  exact ⟨h.1, h.2.1 [badEntry] (by decide), h.2.2 [badEntry]⟩

/-! ### Configuration merge, claim C6 -/

/-- Settings supplying a truthy scoreBoost override of 3. -/
def scoreBoostSettings : Settings :=
  { count := none, maxConsidered := none,
    interest := some { scoreBoost := some 3 } }

/-- C6: the truthy scoreBoost override of 3 is accepted by the merge and
stored into the scoreBoost field, yet the resolved configuration still
carries the built-in scoreBoostExponent of 1.9 and scoring raises the
summed score to that built-in exponent, not to the override, for every
power function p; the override therefore never reaches the engine
computations, contradicting the claimed merge behavior for this field. -/
theorem C6_scoreBoost_override_unused (p : ℚ → ℚ → ℚ) :
    (resolveConfig scoreBoostSettings).scoreBoost = some 3 ∧
    (resolveConfig scoreBoostSettings).scoreBoostExponent = defaultConfig.scoreBoostExponent ∧
    scoreItems p (resolveConfig scoreBoostSettings)
        [{ uid := "u", interests := ["a", "b"], promote := false, boost := none }]
        [] [("a", 1/2), ("b", 1/2)] =
      [{ uid := "u", interests := ["a", "b"], promote := false, score := p (3/2) (19/10) }] := by
  refine ⟨by norm_num [resolveConfig, scoreBoostSettings], rfl, ?_⟩
  have harg : interestSum (resolveConfig scoreBoostSettings) [] [("a", 1/2), ("b", 1/2)]
      ["a", "b"] * (1 + (none : Option ℚ).getD 0) = 3/2 := by
    norm_num [interestSum, priority, wGet, resolveConfig, scoreBoostSettings, orElseQ,
      defaultConfig]
  simp only [scoreItems, List.map]
  rw [show (resolveConfig scoreBoostSettings).scoreBoostExponent = 19/10 from rfl, harg]

end Personalize
